import Mathlib

/-
  Verification of the RL-BIM agent loop (src/agent/main.py, src/agent/mcp_client.py).

  Shallow embedding: the agent's vision-action loop (`BIMAgent.run`), the result
  formatter (`BIMAgent._format_tool_output`), the screenshot persistence routine
  (`BIMAgent._save_debug_screenshot`), and the MCP client's result normalization
  (`MCPClient.call_tool`) and schema conversion (`MCPClient.get_openai_tools_schema`)
  are translated into pure Lean functions.  External collaborators (the OpenAI
  Responses API, the MCP backend session, the json / base64 / filesystem libraries)
  are modelled as function parameters gathered in an `Env` record; python
  exceptions raised by those collaborators are modelled as `Option` / `Except`
  results, and an exception propagating out of `run` is modelled as the
  `Outcome.crashed` result.
-/

set_option maxHeartbeats 1000000

namespace RLBIM

/-- A JSON value as produced by python's json.loads. -/
inductive JVal where
  | obj (fields : List (String × JVal))
  | arr (elems : List JVal)
  | str (s : String)
  | num (n : Int)
  | bool (b : Bool)
  | null

/-- One tool entry as cached by MCPClient.list_tools:
name, description, input_schema. -/
structure ToolInfo where
  name : String
  description : String
  input_schema : JVal

/-- One entry of the OpenAI Responses API function-tool schema, as built by
MCPClient.get_openai_tools_schema. -/
structure OpenAITool where
  type : String
  name : String
  description : String
  parameters : JVal

/-- MCPClient.get_openai_tools_schema (mcp_client.py lines 92-105): raises
RuntimeError when the tools cache is missing or empty (python falsiness of
`not self._tools_cache`), otherwise maps every cached tool to a function-tool
schema entry. -/
def get_openai_tools_schema (cache : Option (List ToolInfo)) : Except String (List OpenAITool) :=
  match cache with
  | none => .error "Call list_tools() first"
  | some [] => .error "Call list_tools() first"
  | some tools =>
      .ok (tools.map fun t =>
        { type := "function", name := t.name, description := t.description,
          parameters := t.input_schema })

/-- A raw content block of the MCP backend response (`result.content` in
MCPClient.call_tool): text, image, or a block of any other type. -/
inductive WireBlock where
  | text (text : String)
  | image (data : String) (mimeType : String)
  | other (ty : String)

/-- The `data` field of a normalized text block: either the structured value
json.loads produced, or the raw string when parsing raised JSONDecodeError. -/
inductive TextData where
  | parsed (j : JVal)
  | raw (s : String)

/-- A normalized content block as stored in the dict returned by
MCPClient.call_tool. -/
inductive NBlock where
  | text (data : TextData)
  | image (data : String) (mimeType : String)

/-- A single tool-call request item of a Responses API response. -/
structure FunctionCall where
  call_id : String
  name : String
  arguments : String
deriving DecidableEq

/-- One item of `response.output` of the Responses API: either a
function-call request or a plain message item (carrying output text). -/
inductive RespItem where
  | function_call (fc : FunctionCall)
  | message (text : String)
deriving DecidableEq

/-- A Responses API response, reduced to its `output` item list. -/
structure Response where
  output : List RespItem
deriving DecidableEq

/-- The `output_text` convenience accessor: the concatenated text of the
message items of the response output. -/
def output_text (r : Response) : String :=
  String.intercalate "" (r.output.filterMap fun it =>
    match it with
    | .message t => some t
    | .function_call _ => none)

/-- The function-call items of a response output, in order
(main.py lines 215-217). -/
def extractFunctionCalls (r : Response) : List FunctionCall :=
  r.output.filterMap fun it =>
    match it with
    | .function_call fc => some fc
    | .message _ => none

/-- One content part of a multimodal function_call_output payload. -/
inductive Part where
  | input_text (text : String)
  | input_image (image_url : String) (detail : String)
deriving DecidableEq

/-- The `output` field of a function_call_output item: a plain string or a
list of content parts. -/
inductive Payload where
  | str (s : String)
  | parts (ps : List Part)
deriving DecidableEq

/-- One entry of `self.input_items`: the initial user message, an engine
output item appended verbatim, or a function_call_output item. -/
inductive Item where
  | user (content : String)
  | fromEngine (it : RespItem)
  | function_call_output (call_id : String) (output : Payload)
deriving DecidableEq

/-- The on-disk screenshot persistence state of one BIMAgent instance:
whether `_screenshot_saved` is set, and the byte-strings written to disk,
in write order. -/
structure SaveState where
  screenshot_saved : Bool
  disk : List String
deriving DecidableEq

/-- The external collaborators of the loop, modelled as functions:
json.loads (none = JSONDecodeError), json.dumps, python str() on a parsed
value, base64-decode-and-write-file (none = exception), the MCP backend
session call, and the Responses API inference call. -/
structure Env where
  parseJson : String → Option JVal
  dumps : JVal → String
  pyStr : JVal → String
  persistFrame : String → Option String
  backend : String → JVal → Except String (List WireBlock)
  engine : List OpenAITool → List Item → Response

/-- The content-normalization loop of MCPClient.call_tool (mcp_client.py
lines 70-89): text blocks are json-parsed when possible and kept raw
otherwise, image blocks are kept, blocks of any other type are skipped. -/
def parseBlocksLoop (pj : String → Option JVal) (acc : List NBlock) :
    List WireBlock → List NBlock
  | [] => acc
  | .text s :: rest =>
      match pj s with
      | some j => parseBlocksLoop pj (acc ++ [.text (.parsed j)]) rest
      | none => parseBlocksLoop pj (acc ++ [.text (.raw s)]) rest
  | .image d m :: rest => parseBlocksLoop pj (acc ++ [.image d m]) rest
  | .other _ :: rest => parseBlocksLoop pj acc rest

/-- MCPClient.call_tool (mcp_client.py lines 62-90): invoke the backend
session and normalize the returned content blocks; a backend exception
propagates. -/
def call_tool (env : Env) (name : String) (arguments : JVal) :
    Except String (List NBlock) :=
  match env.backend name arguments with
  | .error msg => .error msg
  | .ok blocks => .ok (parseBlocksLoop env.parseJson [] blocks)

/-- Whether a parsed JSON value is a python dict. -/
def isDict : JVal → Bool
  | .obj _ => true
  | _ => false

/-- The text of a text block as rendered by _format_tool_output:
`json.dumps(data) if isinstance(data, dict) else str(data)`. -/
def textOfData (env : Env) : TextData → String
  | .parsed j => if isDict j then env.dumps j else env.pyStr j
  | .raw s => s

/-- BIMAgent._save_debug_screenshot (main.py lines 305-317): a no-op once
`_screenshot_saved` is set; otherwise sets the flag, then tries to decode
and write the bytes, swallowing any exception. -/
def save_debug_screenshot (env : Env) (st : SaveState) (b64_data : String) : SaveState :=
  if st.screenshot_saved then st
  else
    match env.persistFrame b64_data with
    | some bytes => { screenshot_saved := true, disk := st.disk ++ [bytes] }
    | none => { screenshot_saved := true, disk := st.disk }

/-- Whether a normalized block is an image block. -/
def isImageBlock : NBlock → Bool
  | .image _ _ => true
  | .text _ => false

/-- The multimodal-branch loop of _format_tool_output (main.py lines
265-284): each image block is saved through _save_debug_screenshot and
wrapped as an input_image data URL, each text block is wrapped as
input_text; block order is the iteration order. -/
def buildPartsLoop (env : Env) (st : SaveState) (acc : List Part) :
    List NBlock → List Part × SaveState
  | [] => (acc, st)
  | .image d m :: rest =>
      let st' := save_debug_screenshot env st d
      buildPartsLoop env st'
        (acc ++ [.input_image ("data:" ++ m ++ ";base64," ++ d) "auto"]) rest
  | .text td :: rest =>
      buildPartsLoop env st (acc ++ [.input_text (textOfData env td)]) rest

/-- The text-only-branch loop of _format_tool_output (main.py lines
292-297): collect the rendered text of the text blocks. -/
def textPartsLoop (env : Env) (acc : List String) : List NBlock → List String
  | [] => acc
  | .text td :: rest => textPartsLoop env (acc ++ [textOfData env td]) rest
  | .image _ _ :: rest => textPartsLoop env acc rest

/-- BIMAgent._format_tool_output (main.py lines 254-303): if any block is an
image, build a multimodal parts array (persisting screenshots as a side
effect); otherwise join the text blocks with newlines into a plain string. -/
def format_tool_output (env : Env) (st : SaveState) (call_id : String)
    (content : List NBlock) : Item × SaveState :=
  if content.any isImageBlock then
    let r := buildPartsLoop env st [] content
    (.function_call_output call_id (.parts r.1), r.2)
  else
    (.function_call_output call_id
      (.str (String.intercalate "\n" (textPartsLoop env [] content))), st)

/-- The terminal result of one BIMAgent.run execution: the final text answer,
the max-steps exhaustion result, or an uncaught exception propagating out of
run. -/
inductive Outcome where
  | completed (text : String)
  | exhausted
  | crashed (msg : String)
deriving DecidableEq

/-- Whether an outcome is the crashed (uncaught exception) outcome. -/
def Outcome.isCrashed : Outcome → Bool
  | .crashed _ => true
  | _ => false

/-- A record of one Responses API inference invocation: the tool catalog
passed and the response obtained. -/
structure InfCall where
  tools : List OpenAITool
  resp : Response

/-- The observable result of one BIMAgent.run execution: the final
input_items list, the inference-invocation log, the screenshot state, and
the outcome. -/
structure RunResult where
  items : List Item
  infLog : List InfCall
  save : SaveState
  outcome : Outcome

/-- Result of processing the function calls of one step: either all calls
processed, or an uncaught exception with the state at that moment. -/
inductive CallsResult where
  | ok (items : List Item) (save : SaveState)
  | crash (msg : String) (items : List Item) (save : SaveState)

/-- The per-step tool-call loop of BIMAgent.run (main.py lines 224-249).
For each call: json.loads the arguments OUTSIDE the try block (a parse
failure therefore propagates as a crash); inside the try, invoke the tool
and append the formatted output, or on any exception append a plain-string
"Tool error" function_call_output and continue. -/
def processCalls (env : Env) (items : List Item) (save : SaveState) :
    List FunctionCall → CallsResult
  | [] => .ok items save
  | fc :: rest =>
      match env.parseJson fc.arguments with
      | none => .crash ("JSONDecodeError: " ++ fc.arguments) items save
      | some args =>
          match call_tool env fc.name args with
          | .ok content =>
              let r := format_tool_output env save fc.call_id content
              processCalls env (items ++ [r.1]) r.2 rest
          | .error msg =>
              processCalls env
                (items ++ [.function_call_output fc.call_id
                  (.str ("Tool error: " ++ msg))]) save rest

/-- The `for step in range(self.max_steps)` loop of BIMAgent.run (main.py
lines 199-252): one inference per iteration, engine output appended
verbatim, terminal return of the output text when no function calls are
present, otherwise the tool-call loop; falling off the loop returns the
max-steps-reached result. -/
def runLoop (env : Env) (tools : List OpenAITool) :
    Nat → List Item → List InfCall → SaveState → RunResult
  | 0, items, log, save => ⟨items, log, save, .exhausted⟩
  | n + 1, items, log, save =>
      let resp := env.engine tools items
      let log' := log ++ [⟨tools, resp⟩]
      let items' := items ++ resp.output.map Item.fromEngine
      let fcs := extractFunctionCalls resp
      if fcs.isEmpty then
        ⟨items', log', save, .completed (output_text resp)⟩
      else
        match processCalls env items' save fcs with
        | .ok items'' save' => runLoop env tools n items'' log' save'
        | .crash msg items'' save' => ⟨items'', log', save', .crashed msg⟩

/-- The initial input_items list of BIMAgent.run (main.py lines 193-195). -/
def initialItems (task : String) : List Item :=
  [.user ("Task: " ++ task ++ "\n\nStart by capturing a view of the model.")]

/-- BIMAgent.run (main.py lines 185-252): build the initial items, obtain the
tool catalog once via get_openai_tools_schema, then execute the bounded
loop.  `save0` is the screenshot state the agent instance carries into this
run. -/
def run (env : Env) (cache : Option (List ToolInfo)) (task : String)
    (max_steps : Nat) (save0 : SaveState) : RunResult :=
  match get_openai_tools_schema cache with
  | .error msg => ⟨initialItems task, [], save0, .crashed msg⟩
  | .ok tools => runLoop env tools max_steps (initialItems task) [] save0

/-! Spec-side characterizations (one normalized block / part per source block),
used to state what the source loops compute. -/

/-- Spec-side mapping of one wire block under call_tool's normalization. -/
def normBlockSpec (pj : String → Option JVal) : WireBlock → Option NBlock
  | .text s =>
      some (.text (match pj s with
        | some j => .parsed j
        | none => .raw s))
  | .image d m => some (.image d m)
  | .other _ => none

/-- Spec-side mapping of one normalized block to its multimodal part. -/
def partOfBlock (env : Env) : NBlock → Part
  | .text td => .input_text (textOfData env td)
  | .image d m => .input_image ("data:" ++ m ++ ";base64," ++ d) "auto"

/-- Spec-side text extraction of one normalized block. -/
def textOfBlock (env : Env) : NBlock → Option String
  | .text td => some (textOfData env td)
  | .image _ _ => none

/-- The base64 data of an image block, none for a text block. -/
def imageDataOf : NBlock → Option String
  | .image d _ => some d
  | .text _ => none

/-- Whether an input item is a function_call_output (tool-result) item. -/
def isFCO : Item → Bool
  | .function_call_output _ _ => true
  | _ => false

/-- The function-call lists and output texts of the last inference of a run,
when one occurred. -/
def lastInfo (r : RunResult) : Option (List FunctionCall × String) :=
  r.infLog.getLast?.map fun e => (extractFunctionCalls e.resp, output_text e.resp)

/-- Whether every inference of a run requested at least one tool call. -/
def allToolCalls (r : RunResult) : Bool :=
  r.infLog.all fun e => !(extractFunctionCalls e.resp).isEmpty

/-- The input-items list a CallsResult carries. -/
def itemsOfCR : CallsResult → List Item
  | .ok items _ => items
  | .crash _ items _ => items

/-- Every tool-result item in the list is preceded by an engine function-call
item with the identical call_id. -/
def precededOk (items : List Item) : Prop :=
  ∀ i c p, items.get? i = some (.function_call_output c p) →
    ∃ j fc, j < i ∧ items.get? j = some (.fromEngine (.function_call fc)) ∧
      fc.call_id = c

/-! Concrete instantiations of the external collaborators, used for witnesses,
counterexamples and scenario conjuncts. -/

/-- A json.loads model that fails on every input. -/
def parseNone : String → Option JVal := fun _ => none

/-- A json.loads model that parses every input as JSON null. -/
def parseNull : String → Option JVal := fun _ => some JVal.null

/-- A fixed json.dumps rendering. -/
def dumps0 : JVal → String := fun _ => "dict"

/-- A fixed str() rendering. -/
def pyStr0 : JVal → String := fun _ => "val"

/-- A persistence model where decode and write always succeed, writing the
base64 text itself. -/
def persistId : String → Option String := fun s => some s

/-- A concrete cached tool entry. -/
def toolA : ToolInfo :=
  { name := "orbit_camera", description := "Rotate the camera", input_schema := JVal.null }

/-- The OpenAI-format catalog produced from the cache holding toolA. -/
def catA : List OpenAITool :=
  [{ type := "function", name := "orbit_camera", description := "Rotate the camera",
     parameters := JVal.null }]

/-- A tool-call request whose arguments string is not valid JSON. -/
def fcBad : FunctionCall :=
  { call_id := "call-1", name := "orbit_camera", arguments := "notjson" }

/-- A tool-call request with parseable arguments. -/
def fcNull : FunctionCall :=
  { call_id := "c1", name := "orbit_camera", arguments := "null" }

/-- An environment whose engine always emits the malformed-arguments call. -/
def envBad : Env :=
  { parseJson := parseNone, dumps := dumps0, pyStr := pyStr0, persistFrame := persistId,
    backend := fun _ _ => .ok [.text "ok"],
    engine := fun _ _ => { output := [.function_call fcBad] } }

/-- An environment whose engine requests a (well-formed, succeeding) tool
call on every step. -/
def envLoop : Env :=
  { parseJson := parseNull, dumps := dumps0, pyStr := pyStr0, persistFrame := persistId,
    backend := fun _ _ => .ok [.text "ok"],
    engine := fun _ _ => { output := [.function_call fcNull] } }

/-- An environment whose engine immediately answers with plain text. -/
def envDone : Env :=
  { parseJson := parseNull, dumps := dumps0, pyStr := pyStr0, persistFrame := persistId,
    backend := fun _ _ => .ok [.text "ok"],
    engine := fun _ _ => { output := [.message "done"] } }

/-- An environment whose backend raises on every invocation. -/
def envErr : Env :=
  { parseJson := parseNull, dumps := dumps0, pyStr := pyStr0, persistFrame := persistId,
    backend := fun _ _ => .error "boom",
    engine := fun _ _ => { output := [.function_call fcNull] } }

/-- The screenshot state of a freshly constructed agent. -/
def freshSave : SaveState := { screenshot_saved := false, disk := [] }

/-- The single inference record produced by a run under envDone: catalog
catA, response a lone message item. -/
def entryDone : InfCall := { tools := catA, resp := { output := [.message "done"] } }

/-! Helper lemmas characterizing the source loops. -/

/-- The call_tool normalization loop is the per-block mapping, appended to the
accumulator and preserving block order. -/
theorem parseBlocksLoop_eq (pj : String → Option JVal) (blocks : List WireBlock) :
    ∀ acc, parseBlocksLoop pj acc blocks = acc ++ blocks.filterMap (normBlockSpec pj) := by
  induction blocks with
  | nil => intro acc; simp [parseBlocksLoop]
  | cons b rest ih =>
      intro acc
      cases b with
      | text s =>
          cases h : pj s with
          | some j => simp [parseBlocksLoop, h, normBlockSpec, ih]
          | none => simp [parseBlocksLoop, h, normBlockSpec, ih]
      | image d m => simp [parseBlocksLoop, normBlockSpec, ih]
      | other t => simp [parseBlocksLoop, normBlockSpec, ih]

/-- The parts built by the multimodal branch are the per-block mapping,
appended to the accumulator and preserving block order. -/
theorem buildPartsLoop_fst (env : Env) (content : List NBlock) :
    ∀ st acc, (buildPartsLoop env st acc content).1 = acc ++ content.map (partOfBlock env) := by
  induction content with
  | nil => intro st acc; simp [buildPartsLoop]
  | cons b rest ih =>
      intro st acc
      cases b with
      | text td => simp [buildPartsLoop, partOfBlock, ih]
      | image d m => simp [buildPartsLoop, partOfBlock, ih]

/-- The save state threaded by the multimodal branch is the fold of
save_debug_screenshot over the image data of the blocks, in order. -/
theorem buildPartsLoop_snd (env : Env) (content : List NBlock) :
    ∀ st acc, (buildPartsLoop env st acc content).2 =
      List.foldl (save_debug_screenshot env) st (content.filterMap imageDataOf) := by
  induction content with
  | nil => intro st acc; simp [buildPartsLoop]
  | cons b rest ih =>
      intro st acc
      cases b with
      | text td => simp [buildPartsLoop, imageDataOf, ih]
      | image d m => simp [buildPartsLoop, imageDataOf, ih]

/-- The text-only branch collects the rendered text blocks in order. -/
theorem textPartsLoop_eq (env : Env) (content : List NBlock) :
    ∀ acc, textPartsLoop env acc content = acc ++ content.filterMap (textOfBlock env) := by
  induction content with
  | nil => intro acc; simp [textPartsLoop]
  | cons b rest ih =>
      intro acc
      cases b with
      | text td => simp [textPartsLoop, textOfBlock, ih]
      | image d m => simp [textPartsLoop, textOfBlock, ih]

/-- The payload part of format_tool_output, in closed form. -/
theorem format_tool_output_fst (env : Env) (st : SaveState) (call_id : String)
    (content : List NBlock) :
    (format_tool_output env st call_id content).1 =
      .function_call_output call_id
        (if content.any isImageBlock then Payload.parts (content.map (partOfBlock env))
         else Payload.str (String.intercalate "\n" (content.filterMap (textOfBlock env)))) := by
  cases h : content.any isImageBlock with
  | true => simp [format_tool_output, h, buildPartsLoop_fst]
  | false => simp [format_tool_output, h, textPartsLoop_eq]

/-- The save state produced by format_tool_output, in closed form. -/
theorem format_tool_output_snd (env : Env) (st : SaveState) (call_id : String)
    (content : List NBlock) :
    (format_tool_output env st call_id content).2 =
      (if content.any isImageBlock then
        List.foldl (save_debug_screenshot env) st (content.filterMap imageDataOf)
       else st) := by
  cases h : content.any isImageBlock with
  | true => simp [format_tool_output, h, buildPartsLoop_snd]
  | false => simp [format_tool_output, h]

/-- Once the screenshot flag is set, save_debug_screenshot is a no-op. -/
theorem save_debug_screenshot_noop (env : Env) (st : SaveState) (b : String)
    (h : st.screenshot_saved = true) : save_debug_screenshot env st b = st := by
  simp [save_debug_screenshot, h]

/-- Once the screenshot flag is set, any sequence of saves is a no-op. -/
theorem foldl_save_noop (env : Env) (l : List String) :
    ∀ st : SaveState, st.screenshot_saved = true →
      List.foldl (save_debug_screenshot env) st l = st := by
  induction l with
  | nil => intro st _; rfl
  | cons b rest ih =>
      intro st h
      simp only [List.foldl_cons, save_debug_screenshot_noop env st b h, ih st h]

/-- The rendered text of a block does not depend on the persistence model. -/
theorem textOfData_persist (env : Env) (p : String → Option String) (td : TextData) :
    textOfData { env with persistFrame := p } td = textOfData env td := by
  cases td <;> rfl

/-- The part built from a block does not depend on the persistence model. -/
theorem partOfBlock_persist (env : Env) (p : String → Option String) (b : NBlock) :
    partOfBlock { env with persistFrame := p } b = partOfBlock env b := by
  cases b with
  | text td => simp [partOfBlock, textOfData_persist]
  | image d m => rfl

/-- The extracted text of a block does not depend on the persistence model. -/
theorem textOfBlock_persist (env : Env) (p : String → Option String) (b : NBlock) :
    textOfBlock { env with persistFrame := p } b = textOfBlock env b := by
  cases b with
  | text td => simp [textOfBlock, textOfData_persist]
  | image d m => rfl

/-- Each loop iteration performs exactly one inference, so the inference log
grows by at most the remaining step budget. -/
theorem runLoop_log_le (env : Env) (tools : List OpenAITool) :
    ∀ (n : Nat) (items : List Item) (log : List InfCall) (save : SaveState),
      (runLoop env tools n items log save).infLog.length ≤ log.length + n := by
  intro n
  induction n with
  | zero => intro items log save; simp [runLoop]
  | succ n ih =>
      intro items log save
      simp only [runLoop]
      split
      · simp
      · split
        · rename_i items'' save' _
          refine le_trans (ih items'' (log ++ [⟨tools, env.engine tools items⟩]) save') ?_
          simp
          omega
        · simp

/-- Every inference recorded by the loop received the `tools` catalog the
loop was started with. -/
theorem runLoop_tools_mem (env : Env) (tools : List OpenAITool) :
    ∀ (n : Nat) (items : List Item) (log : List InfCall) (save : SaveState)
      (e : InfCall), e ∈ (runLoop env tools n items log save).infLog →
      e ∈ log ∨ e.tools = tools := by
  intro n
  induction n with
  | zero => intro items log save e he; exact Or.inl (by simpa [runLoop] using he)
  | succ n ih =>
      intro items log save e he
      simp only [runLoop] at he
      split at he
      · simp at he
        rcases he with he | he
        · exact Or.inl he
        · right; rw [he]
      · split at he
        · rename_i items'' save' _
          rcases ih items'' _ save' e he with hmem | htools
          · simp at hmem
            rcases hmem with hmem | hmem
            · exact Or.inl hmem
            · right; rw [hmem]
          · exact Or.inr htools
        · simp at he
          rcases he with he | he
          · exact Or.inl he
          · right; rw [he]

/-- If the loop terminates with the completed outcome, the last recorded
inference had no function calls and produced the returned text. -/
theorem runLoop_completed_last (env : Env) (tools : List OpenAITool) :
    ∀ (n : Nat) (items : List Item) (log : List InfCall) (save : SaveState) (t : String),
      (runLoop env tools n items log save).outcome = .completed t →
      ((runLoop env tools n items log save).infLog.getLast?.map
        fun e => (extractFunctionCalls e.resp, output_text e.resp)) = some ([], t) := by
  intro n
  induction n with
  | zero => intro items log save t h; simp [runLoop] at h
  | succ n ih =>
      intro items log save t h
      cases hemp : (extractFunctionCalls (env.engine tools items)).isEmpty with
      | true =>
          simp only [runLoop, hemp, if_true] at h ⊢
          simp at h
          simp [List.getLast?_concat, List.isEmpty_iff.mp hemp, h]
      | false =>
          simp only [runLoop, hemp, Bool.false_eq_true, if_false] at h ⊢
          cases hp : processCalls env
              (items ++ List.map Item.fromEngine (env.engine tools items).output) save
              (extractFunctionCalls (env.engine tools items)) with
          | ok items'' save' =>
              simp only [hp] at h ⊢
              exact ih items'' _ save' t h
          | crash msg items'' save' =>
              simp only [hp] at h
              simp at h

/-- If every recorded inference requested at least one tool call and no
exception escaped, the loop ends in the exhausted outcome. -/
theorem runLoop_exhausted_of_all (env : Env) (tools : List OpenAITool) :
    ∀ (n : Nat) (items : List Item) (log : List InfCall) (save : SaveState),
      ((runLoop env tools n items log save).infLog.all
        fun e => !(extractFunctionCalls e.resp).isEmpty) = true →
      (runLoop env tools n items log save).outcome.isCrashed = false →
      (runLoop env tools n items log save).outcome = .exhausted := by
  intro n
  induction n with
  | zero => intro items log save _ _; simp [runLoop]
  | succ n ih =>
      intro items log save hall hcr
      cases hemp : (extractFunctionCalls (env.engine tools items)).isEmpty with
      | true =>
          exfalso
          simp only [runLoop, hemp, if_true] at hall
          simp [List.all_append, hemp] at hall
      | false =>
          simp only [runLoop, hemp, Bool.false_eq_true, if_false] at hall hcr ⊢
          cases hp : processCalls env
              (items ++ List.map Item.fromEngine (env.engine tools items).output) save
              (extractFunctionCalls (env.engine tools items)) with
          | ok items'' save' =>
              simp only [hp] at hall hcr ⊢
              exact ih items'' _ save' hall hcr
          | crash msg items'' save' =>
              simp only [hp] at hcr
              simp [Outcome.isCrashed] at hcr

/-- If any recorded inference of the loop had no function calls, the loop
terminated at that inference with the completed outcome carrying its output
text — an empty-output step forces termination, provided the entries the
loop started from all had function calls (the loop's own invariant). -/
theorem runLoop_empty_step_completes (env : Env) (tools : List OpenAITool) :
    ∀ (n : Nat) (items : List Item) (log : List InfCall) (save : SaveState),
      (∀ e ∈ log, extractFunctionCalls e.resp ≠ []) →
      ∀ e ∈ (runLoop env tools n items log save).infLog,
        extractFunctionCalls e.resp = [] →
        (runLoop env tools n items log save).outcome = .completed (output_text e.resp) := by
  intro n
  induction n with
  | zero =>
      intro items log save hlog e he hee
      simp only [runLoop] at he
      exact absurd hee (hlog e he)
  | succ n ih =>
      intro items log save hlog e he hee
      cases hemp : (extractFunctionCalls (env.engine tools items)).isEmpty with
      | true =>
          simp only [runLoop, hemp, if_true] at he ⊢
          rcases List.mem_append.mp he with h1 | h2
          · exact absurd hee (hlog e h1)
          · have heq : e = ⟨tools, env.engine tools items⟩ := by simpa using h2
            rw [heq]
      | false =>
          have hne : extractFunctionCalls (env.engine tools items) ≠ [] := by
            intro hcontra
            rw [hcontra] at hemp
            simp at hemp
          simp only [runLoop, hemp, Bool.false_eq_true, if_false] at he ⊢
          cases hp : processCalls env
              (items ++ List.map Item.fromEngine (env.engine tools items).output) save
              (extractFunctionCalls (env.engine tools items)) with
          | ok items'' save' =>
              simp only [hp] at he ⊢
              refine ih items'' _ save' ?_ e he hee
              intro e' he'
              rcases List.mem_append.mp he' with h1 | h2
              · exact hlog e' h1
              · have heq : e' = ⟨tools, env.engine tools items⟩ := by simpa using h2
                rw [heq]
                exact hne
          | crash msg items'' save' =>
              simp only [hp] at he
              exfalso
              rcases List.mem_append.mp he with h1 | h2
              · exact absurd hee (hlog e h1)
              · have heq : e = ⟨tools, env.engine tools items⟩ := by simpa using h2
                rw [heq] at hee
                exact hne hee

/-- Appending items that are not tool results preserves the call-id
precedence invariant. -/
theorem precededOk_append_notFCO (items ys : List Item)
    (h : precededOk items) (hys : ∀ y ∈ ys, isFCO y = false) :
    precededOk (items ++ ys) := by
  intro i c p hget
  by_cases hi : i < items.length
  · rw [List.get?_append hi] at hget
    obtain ⟨j, fc, hj, hjget, hid⟩ := h i c p hget
    refine ⟨j, fc, hj, ?_, hid⟩
    rw [List.get?_append (hj.trans hi)]
    exact hjget
  · have hge : items.length ≤ i := le_of_not_lt hi
    rw [List.get?_append_right hge] at hget
    have hmem := List.get?_mem hget
    have := hys _ hmem
    simp [isFCO] at this

/-- Appending one tool-result item whose call_id is that of an engine
function-call item already present preserves the invariant. -/
theorem precededOk_append_FCO (items : List Item) (c : String) (p : Payload)
    (h : precededOk items) (fc : FunctionCall)
    (hmem : Item.fromEngine (.function_call fc) ∈ items) (hid : fc.call_id = c) :
    precededOk (items ++ [.function_call_output c p]) := by
  intro i c' p' hget
  by_cases hi : i < items.length
  · rw [List.get?_append hi] at hget
    obtain ⟨j, fc', hj, hjget, hid'⟩ := h i c' p' hget
    refine ⟨j, fc', hj, ?_, hid'⟩
    rw [List.get?_append (hj.trans hi)]
    exact hjget
  · have hge : items.length ≤ i := le_of_not_lt hi
    rw [List.get?_append_right hge] at hget
    have hi0 : i - items.length = 0 := by
      cases hk : i - items.length with
      | zero => rfl
      | succ k => rw [hk] at hget; simp at hget
    rw [hi0] at hget
    simp at hget
    obtain ⟨hc, _⟩ := hget
    obtain ⟨j, hjget⟩ := List.get?_of_mem hmem
    have hjlt : j < items.length := (List.get?_eq_some.mp hjget).1
    refine ⟨j, fc, lt_of_lt_of_le hjlt hge, ?_, by rw [hid, hc]⟩
    rw [List.get?_append hjlt]
    exact hjget

/-- The per-step tool-call loop preserves the call-id precedence invariant,
given that every pending call's request item is already in the list. -/
theorem processCalls_preserves (env : Env) :
    ∀ (fcs : List FunctionCall) (items : List Item) (save : SaveState),
      precededOk items →
      (∀ fc ∈ fcs, Item.fromEngine (.function_call fc) ∈ items) →
      precededOk (itemsOfCR (processCalls env items save fcs)) := by
  intro fcs
  induction fcs with
  | nil => intro items save h _; exact h
  | cons fc rest ih =>
      intro items save h hmem
      cases hp : env.parseJson fc.arguments with
      | none => simp only [processCalls, hp, itemsOfCR]; exact h
      | some args =>
          cases hc : call_tool env fc.name args with
          | error msg =>
              simp only [processCalls, hp, hc]
              refine ih _ save ?_ ?_
              · exact precededOk_append_FCO items fc.call_id _ h fc (hmem fc (by simp)) rfl
              · intro fc' hfc'
                exact List.mem_append_left _ (hmem fc' (by simp [hfc']))
          | ok content =>
              simp only [processCalls, hp, hc]
              refine ih _ _ ?_ ?_
              · rw [format_tool_output_fst]
                exact precededOk_append_FCO items fc.call_id _ h fc (hmem fc (by simp)) rfl
              · intro fc' hfc'
                exact List.mem_append_left _ (hmem fc' (by simp [hfc']))

/-- The loop preserves the call-id precedence invariant of the items list. -/
theorem runLoop_precededOk (env : Env) (tools : List OpenAITool) :
    ∀ (n : Nat) (items : List Item) (log : List InfCall) (save : SaveState),
      precededOk items → precededOk (runLoop env tools n items log save).items := by
  intro n
  induction n with
  | zero => intro items log save h; exact h
  | succ n ih =>
      intro items log save h
      have hitems' : precededOk
          (items ++ (env.engine tools items).output.map Item.fromEngine) := by
        refine precededOk_append_notFCO _ _ h ?_
        intro y hy
        rw [List.mem_map] at hy
        obtain ⟨a, _, rfl⟩ := hy
        rfl
      have hmem : ∀ fc ∈ extractFunctionCalls (env.engine tools items),
          Item.fromEngine (.function_call fc) ∈
            items ++ (env.engine tools items).output.map Item.fromEngine := by
        intro fc hfc
        rw [extractFunctionCalls, List.mem_filterMap] at hfc
        obtain ⟨a, ha, hfa⟩ := hfc
        cases a with
        | function_call fc' =>
            simp at hfa
            subst hfa
            exact List.mem_append_right _ (List.mem_map_of_mem _ ha)
        | message t => simp at hfa
      cases hemp : (extractFunctionCalls (env.engine tools items)).isEmpty with
      | true =>
          simp only [runLoop, hemp, if_true]
          exact hitems'
      | false =>
          simp only [runLoop, hemp, Bool.false_eq_true, if_false]
          cases hp : processCalls env
              (items ++ List.map Item.fromEngine (env.engine tools items).output) save
              (extractFunctionCalls (env.engine tools items)) with
          | ok items'' save' =>
              simp only [hp]
              refine ih items'' _ save' ?_
              have hpre := processCalls_preserves env _ _ save hitems' hmem
              rw [hp] at hpre
              exact hpre
          | crash msg items'' save' =>
              simp only [hp]
              have hpre := processCalls_preserves env _ _ save hitems' hmem
              rw [hp] at hpre
              exact hpre

/-- The initial items list satisfies the call-id precedence invariant. -/
theorem precededOk_initial (task : String) : precededOk (initialItems task) := by
  intro i c p hget
  cases i with
  | zero => simp [initialItems] at hget
  | succ j => simp [initialItems] at hget

/-- A list all of whose members equal `a` is a replicate of `a`. -/
theorem eq_replicate_of_all {α : Type} (l : List α) (a : α)
    (h : ∀ b ∈ l, b = a) : l = List.replicate l.length a :=
  List.eq_replicate_iff.mpr ⟨rfl, h⟩

/-! Claim theorems. -/

/-- Claim C1, counterexample: the claim that malformed tool-call arguments
are treated as an ordinary ToolError is false on the code.  With an engine
emitting a call whose arguments string is not valid JSON, run ends in the
crashed outcome (json.loads is evaluated outside the try block and the
exception propagates), and no tool-result item at all is appended. -/
theorem claim_C1_counterexample :
    (run envBad (some [toolA]) "t" 3 freshSave).outcome =
      .crashed ("JSONDecodeError: " ++ "notjson")
    ∧ (run envBad (some [toolA]) "t" 3 freshSave).items.countP isFCO = 0 := by
  constructor <;> decide

/-- Claim C1 (amended): a tool-call request whose arguments string is not
valid JSON makes the per-step tool-call loop raise before the try block:
the exception propagates (crash), no error ToolResult is appended for that
call, and the remaining calls of the step are not processed. -/
theorem claim_C1_malformed_arguments_crash :
    ∀ (env : Env) (fc : FunctionCall) (rest : List FunctionCall)
      (items : List Item) (save : SaveState),
      env.parseJson fc.arguments = none →
      processCalls env items save (fc :: rest) =
        .crash ("JSONDecodeError: " ++ fc.arguments) items save := by
  intro env fc rest items save hp
  simp [processCalls, hp]

/-- Claim C1 witness: the amended statement at a concrete malformed call. -/
theorem claim_C1_witness :
    envBad.parseJson "notjson" = none
    ∧ processCalls envBad [] freshSave [fcBad] =
        .crash ("JSONDecodeError: " ++ "notjson") [] freshSave :=
  ⟨rfl, claim_C1_malformed_arguments_crash envBad fcBad [] [] freshSave rfl⟩

/-- Claim C2, counterexample: the claim that after N record operations
min(N, 10) records are retained with FIFO eviction is false on the code.
After two record operations (both with succeeding decode and write) exactly
one record is on disk — the FIRST one — whereas the claim demands
min(2, 10) = 2. -/
theorem claim_C2_counterexample :
    (List.foldl (save_debug_screenshot envDone) freshSave ["AA", "BB"]).disk = ["AA"]
    ∧ ¬ ((List.foldl (save_debug_screenshot envDone) freshSave ["AA", "BB"]).disk.length
          = min 2 10) := by
  constructor <;> decide

/-- Claim C2 (amended): after N ≥ 1 image-persistence operations on a fresh
agent (the first decode-and-write succeeding), the number of retained
on-disk records equals min(N, 1), and the retained record is the FIRST
(oldest) frame: later frames are never persisted, so nothing is ever
evicted. -/
theorem claim_C2_first_frame_only :
    ∀ (env : Env) (b : String) (bs : List String) (bytes : String),
      env.persistFrame b = some bytes →
      (List.foldl (save_debug_screenshot env) freshSave (b :: bs)).disk = [bytes]
      ∧ (List.foldl (save_debug_screenshot env) freshSave (b :: bs)).disk.length
          = min (b :: bs).length 1 := by
  intro env b bs bytes hb
  have h1 : save_debug_screenshot env freshSave b =
      { screenshot_saved := true, disk := [bytes] } := by
    simp [save_debug_screenshot, freshSave, hb]
  have h2 : List.foldl (save_debug_screenshot env) freshSave (b :: bs) =
      { screenshot_saved := true, disk := [bytes] } := by
    simp only [List.foldl_cons, h1]
    exact foldl_save_noop env bs _ rfl
  rw [h2]
  refine ⟨rfl, ?_⟩
  show 1 = min (bs.length + 1) 1
  omega

/-- Claim C2 witness: the amended statement after three record operations. -/
theorem claim_C2_witness :
    envLoop.persistFrame "AA" = some "AA"
    ∧ (List.foldl (save_debug_screenshot envLoop) freshSave ["AA", "BB", "CC"]).disk = ["AA"]
    ∧ (List.foldl (save_debug_screenshot envLoop) freshSave ["AA", "BB", "CC"]).disk.length
        = min (["AA", "BB", "CC"] : List String).length 1 :=
  ⟨rfl, (claim_C2_first_frame_only envLoop "AA" ["BB", "CC"] "AA" rfl).1,
   (claim_C2_first_frame_only envLoop "AA" ["BB", "CC"] "AA" rfl).2⟩

/-- Claim C3, counterexample: the claim that EVERY Image block is persisted
to disk before being wrapped is false on the code.  Formatting a result
with two image blocks from a fresh state wraps both into the payload but
writes only the first to disk; the second image's bytes never reach disk. -/
theorem claim_C3_counterexample :
    (format_tool_output envDone freshSave "id2"
        [.image "AA" "image/png", .image "BB" "image/png"]).2.disk = ["AA"]
    ∧ ¬ ("BB" ∈ (format_tool_output envDone freshSave "id2"
        [.image "AA" "image/png", .image "BB" "image/png"]).2.disk)
    ∧ (format_tool_output envDone freshSave "id2"
        [.image "AA" "image/png", .image "BB" "image/png"]).1 =
      .function_call_output "id2"
        (.parts [.input_image "data:image/png;base64,AA" "auto",
                 .input_image "data:image/png;base64,BB" "auto"]) :=
  ⟨by decide, by decide, by decide⟩

/-- Claim C3 (amended): the save routine is invoked once per Image block,
in order, before wrapping (the resulting save state is the fold of the
routine over the image data), but it persists at most the first frame of
the agent's lifetime: once the flag is set it is a no-op, on a fresh flag a
successful decode-and-write appends exactly one record and a failure is
caught and writes nothing; in every case the payload handed back to the
loop is unaffected by the persistence model and state. -/
theorem claim_C3_persistence_side_channel :
    (∀ (env : Env) (p q : String → Option String) (st st' : SaveState)
       (call_id : String) (content : List NBlock),
      (format_tool_output { env with persistFrame := p } st call_id content).1 =
      (format_tool_output { env with persistFrame := q } st' call_id content).1)
    ∧ (∀ (env : Env) (st : SaveState) (call_id : String) (content : List NBlock),
      (format_tool_output env st call_id content).2 =
        if content.any isImageBlock then
          List.foldl (save_debug_screenshot env) st (content.filterMap imageDataOf)
        else st)
    ∧ (∀ (env : Env) (st : SaveState) (b : String),
      st.screenshot_saved = true → save_debug_screenshot env st b = st)
    ∧ (∀ (env : Env) (st : SaveState) (b bytes : String),
      st.screenshot_saved = false → env.persistFrame b = some bytes →
      save_debug_screenshot env st b =
        { screenshot_saved := true, disk := st.disk ++ [bytes] })
    ∧ (∀ (env : Env) (st : SaveState) (b : String),
      st.screenshot_saved = false → env.persistFrame b = none →
      save_debug_screenshot env st b = { screenshot_saved := true, disk := st.disk }) := by
  refine ⟨?_, format_tool_output_snd, save_debug_screenshot_noop, ?_, ?_⟩
  · intro env p q st st' cid content
    rw [format_tool_output_fst, format_tool_output_fst]
    rw [funext (partOfBlock_persist env p), funext (partOfBlock_persist env q),
        funext (textOfBlock_persist env p), funext (textOfBlock_persist env q)]
  · intro env st b bytes h1 h2
    simp [save_debug_screenshot, h1, h2]
  · intro env st b h1 h2
    simp [save_debug_screenshot, h1, h2]

/-- Claim C3 witness: the amended statement at concrete saves. -/
theorem claim_C3_witness :
    freshSave.screenshot_saved = false
    ∧ envDone.persistFrame "AA" = some "AA"
    ∧ save_debug_screenshot envDone freshSave "AA" =
        { screenshot_saved := true, disk := [] ++ ["AA"] }
    ∧ ({ screenshot_saved := true, disk := ["ZZ"] } : SaveState).screenshot_saved = true
    ∧ save_debug_screenshot envDone { screenshot_saved := true, disk := ["ZZ"] } "BB" =
        { screenshot_saved := true, disk := ["ZZ"] } :=
  ⟨rfl, rfl,
   claim_C3_persistence_side_channel.2.2.2.1 envDone freshSave "AA" "AA" rfl rfl,
   rfl,
   claim_C3_persistence_side_channel.2.2.1 envDone
     { screenshot_saved := true, disk := ["ZZ"] } "BB" rfl⟩

/-- Claim C4: a tool invocation that raises appends exactly one
function_call_output for that call_id, whose output is the single
error-describing text string, and processing continues with the remaining
tool calls of the step. -/
theorem claim_C4_tool_error_is_contained :
    ∀ (env : Env) (fc : FunctionCall) (rest : List FunctionCall)
      (items : List Item) (save : SaveState) (args : JVal) (msg : String),
      env.parseJson fc.arguments = some args →
      call_tool env fc.name args = .error msg →
      processCalls env items save (fc :: rest) =
        processCalls env
          (items ++ [.function_call_output fc.call_id (.str ("Tool error: " ++ msg))])
          save rest := by
  intro env fc rest items save args msg hp hc
  simp [processCalls, hp, hc]

/-- Claim C4 witness: the statement at a concrete failing invocation. -/
theorem claim_C4_witness :
    envErr.parseJson "null" = some JVal.null
    ∧ call_tool envErr "orbit_camera" JVal.null = Except.error "boom"
    ∧ processCalls envErr [] freshSave [fcNull] =
        processCalls envErr
          [.function_call_output "c1" (.str ("Tool error: " ++ "boom"))] freshSave [] :=
  ⟨rfl, rfl,
   claim_C4_tool_error_is_contained envErr fcNull [] [] freshSave JVal.null "boom" rfl rfl⟩

/-- Claim C5: the number of inference invocations of a run is at most
max_steps (one per loop iteration, however many tool calls the iteration
performs); with max_steps = 2 and an engine requesting a tool call on every
step, exactly 2 inference calls occur and the outcome is exhausted. -/
theorem claim_C5_inference_budget :
    (∀ (env : Env) (cache : Option (List ToolInfo)) (task : String)
       (n : Nat) (save0 : SaveState),
      (run env cache task n save0).infLog.length ≤ n)
    ∧ (run envLoop (some [toolA]) "t" 2 freshSave).infLog.length = 2
    ∧ (run envLoop (some [toolA]) "t" 2 freshSave).outcome = .exhausted := by
  refine ⟨?_, by rfl, by decide⟩
  intro env cache task n save0
  cases h : get_openai_tools_schema cache with
  | error msg => simp [run, h]
  | ok tools =>
      simp only [run, h]
      simpa using runLoop_log_le env tools n (initialItems task) [] save0

/-- Claim C6: run has exactly two terminal outcomes.  Forward direction: if
any inference of the run produced an output with no tool-call requests, the
run returned Completed with that inference's free-text answer as the task
result.  Converse: a Completed(t) outcome came from a last inference with no
tool calls whose answer is t.  And if every inference requested tool calls
and no exception escaped, the step budget ran out and the outcome is
Exhausted — so a normally completing run produces no other outcome. -/
theorem claim_C6_terminal_outcomes :
    ∀ (env : Env) (cache : Option (List ToolInfo)) (task : String)
      (n : Nat) (save0 : SaveState),
      (∀ e ∈ (run env cache task n save0).infLog,
        extractFunctionCalls e.resp = [] →
        (run env cache task n save0).outcome = .completed (output_text e.resp))
      ∧ (∀ t, (run env cache task n save0).outcome = .completed t →
          lastInfo (run env cache task n save0) = some ([], t))
      ∧ (allToolCalls (run env cache task n save0) = true →
         (run env cache task n save0).outcome.isCrashed = false →
         (run env cache task n save0).outcome = .exhausted) := by
  intro env cache task n save0
  cases h : get_openai_tools_schema cache with
  | error msg =>
      refine ⟨?_, ?_, ?_⟩
      · intro e he hee
        simp [run, h] at he
      · intro t ht
        simp [run, h] at ht
      · intro _ hcr
        simp [run, h, Outcome.isCrashed] at hcr
  | ok tools =>
      refine ⟨?_, ?_, ?_⟩
      · intro e he hee
        simp only [run, h] at he ⊢
        refine runLoop_empty_step_completes env tools n (initialItems task) [] save0
          ?_ e he hee
        intro e' he'
        simp at he'
      · intro t ht
        simp only [run, h] at ht ⊢
        simp only [lastInfo]
        exact runLoop_completed_last env tools n (initialItems task) [] save0 t ht
      · intro hall hcr
        simp only [run, h, allToolCalls] at hall hcr ⊢
        exact runLoop_exhausted_of_all env tools n (initialItems task) [] save0 hall hcr

/-- Claim C6 witness: both terminal outcomes at concrete runs — the
empty-output inference of the envDone run forces Completed with its answer,
and the always-tool-calling envLoop run is Exhausted. -/
theorem claim_C6_witness :
    entryDone ∈ (run envDone (some [toolA]) "t" 3 freshSave).infLog
    ∧ extractFunctionCalls entryDone.resp = []
    ∧ (run envDone (some [toolA]) "t" 3 freshSave).outcome =
        Outcome.completed (output_text entryDone.resp)
    ∧ (run envDone (some [toolA]) "t" 3 freshSave).outcome = Outcome.completed "done"
    ∧ lastInfo (run envDone (some [toolA]) "t" 3 freshSave) = some ([], "done")
    ∧ allToolCalls (run envLoop (some [toolA]) "t" 2 freshSave) = true
    ∧ (run envLoop (some [toolA]) "t" 2 freshSave).outcome.isCrashed = false
    ∧ (run envLoop (some [toolA]) "t" 2 freshSave).outcome = Outcome.exhausted := by
  have hlog : (run envDone (some [toolA]) "t" 3 freshSave).infLog = [entryDone] := rfl
  have hmem : entryDone ∈ (run envDone (some [toolA]) "t" 3 freshSave).infLog := by
    rw [hlog]
    exact List.mem_singleton.mpr rfl
  exact ⟨hmem, rfl,
    (claim_C6_terminal_outcomes envDone (some [toolA]) "t" 3 freshSave).1 entryDone hmem rfl,
    by decide,
    (claim_C6_terminal_outcomes envDone (some [toolA]) "t" 3 freshSave).2.1 "done" (by decide),
    by decide, by decide,
    (claim_C6_terminal_outcomes envLoop (some [toolA]) "t" 2 freshSave).2.2
      (by decide) (by decide)⟩

/-- Claim C7: the formatter maps a block list with at least one image to a
multimodal array preserving block order (text blocks to text items, image
blocks to inline-bytes image items), and an image-free block list to the
newline-joined string of its text blocks; in particular on the two
reference inputs of the spec. -/
theorem claim_C7_format_payload :
    (∀ (env : Env) (st : SaveState) (call_id : String) (content : List NBlock),
      (format_tool_output env st call_id content).1 =
        .function_call_output call_id
          (if content.any isImageBlock then
            Payload.parts (content.map (partOfBlock env))
           else
            Payload.str (String.intercalate "\n" (content.filterMap (textOfBlock env)))))
    ∧ (format_tool_output envDone freshSave "id1"
        [.text (.raw "a"), .image "b" "image/png"]).1 =
        .function_call_output "id1"
          (.parts [.input_text "a", .input_image "data:image/png;base64,b" "auto"])
    ∧ (format_tool_output envDone freshSave "id1" [.text (.raw "a"), .text (.raw "b")]).1 =
        .function_call_output "id1" (.str "a\nb") :=
  ⟨format_tool_output_fst, by decide, by decide⟩

/-- Claim C8: the call_id of every processed tool-call request round-trips
unchanged into the single tool-result item appended for it (on the success
path, and on the failure path; the only other possibility is the
malformed-arguments crash, which appends nothing), and in the final items
list of any run no tool-result item appears without an earlier engine
function-call item bearing the identical call_id. -/
theorem claim_C8_call_id_roundtrip :
    (∀ (env : Env) (fc : FunctionCall) (items : List Item) (save : SaveState),
      processCalls env items save [fc] =
          .crash ("JSONDecodeError: " ++ fc.arguments) items save
      ∨ ∃ p save', processCalls env items save [fc] =
          .ok (items ++ [.function_call_output fc.call_id p]) save')
    ∧ ∀ (env : Env) (cache : Option (List ToolInfo)) (task : String)
        (n : Nat) (save0 : SaveState),
        precededOk (run env cache task n save0).items := by
  constructor
  · intro env fc items save
    cases hp : env.parseJson fc.arguments with
    | none =>
        left
        simp [processCalls, hp]
    | some args =>
        right
        cases hc : call_tool env fc.name args with
        | error msg =>
            exact ⟨.str ("Tool error: " ++ msg), save, by simp [processCalls, hp, hc]⟩
        | ok content =>
            refine ⟨(if content.any isImageBlock then
                      Payload.parts (content.map (partOfBlock env))
                     else
                      Payload.str (String.intercalate "\n"
                        (content.filterMap (textOfBlock env)))),
                    (format_tool_output env save fc.call_id content).2, ?_⟩
            simp only [processCalls, hp, hc]
            rw [format_tool_output_fst]
  · intro env cache task n save0
    cases h : get_openai_tools_schema cache with
    | error msg =>
        simp only [run, h]
        exact precededOk_initial task
    | ok tools =>
        simp only [run, h]
        exact runLoop_precededOk env tools n _ [] save0 (precededOk_initial task)

/-- Claim C9: the tool catalog handed to every inference call of a run is
the one value obtained from get_openai_tools_schema before the loop starts:
the inference log's catalog column is constant at that value. -/
theorem claim_C9_catalog_once :
    ∀ (env : Env) (cache : Option (List ToolInfo)) (task : String)
      (n : Nat) (save0 : SaveState) (cat : List OpenAITool),
      get_openai_tools_schema cache = .ok cat →
      (run env cache task n save0).infLog.map InfCall.tools =
        List.replicate (run env cache task n save0).infLog.length cat := by
  intro env cache task n save0 cat h
  simp only [run, h]
  have hall : ∀ b ∈ (runLoop env cat n (initialItems task) [] save0).infLog.map
      InfCall.tools, b = cat := by
    intro b hb
    rw [List.mem_map] at hb
    obtain ⟨e, he, rfl⟩ := hb
    rcases runLoop_tools_mem env cat n (initialItems task) [] save0 e he with h0 | h1
    · simp at h0
    · exact h1
  have hrep := eq_replicate_of_all _ cat hall
  rwa [List.length_map] at hrep

/-- Claim C9 witness: the statement at a concrete one-step run. -/
theorem claim_C9_witness :
    get_openai_tools_schema (some [toolA]) = Except.ok catA
    ∧ (run envDone (some [toolA]) "t" 1 freshSave).infLog.map InfCall.tools =
        List.replicate (run envDone (some [toolA]) "t" 1 freshSave).infLog.length catA :=
  ⟨rfl, claim_C9_catalog_once envDone (some [toolA]) "t" 1 freshSave catA rfl⟩

/-- Claim C10: call_tool's content normalization is total: a text block
whose text parses as JSON becomes structured data, a text block whose text
is not valid JSON stays the raw string (the JSONDecodeError is caught),
image blocks pass through, blocks of any other type are silently dropped,
and order is preserved; call_tool itself is the backend invocation mapped
through this normalization. -/
theorem claim_C10_call_tool_normalization :
    (∀ (pj : String → Option JVal) (blocks : List WireBlock),
      parseBlocksLoop pj [] blocks = blocks.filterMap (normBlockSpec pj))
    ∧ (∀ (env : Env) (name : String) (args : JVal),
      call_tool env name args =
        Except.map (fun blocks => blocks.filterMap (normBlockSpec env.parseJson))
          (env.backend name args)) := by
  constructor
  · intro pj blocks
    simpa using parseBlocksLoop_eq pj blocks []
  · intro env name args
    rw [call_tool]
    cases env.backend name args with
    | error msg => rfl
    | ok blocks => simp [Except.map, parseBlocksLoop_eq]

end RLBIM
